import Mathlib

/-!
Shallow embedding of the scraper's scheduler core
(`src/scraper/src/utils/priority-queue.ts`, `src/scraper/src/core/url-manager.ts`,
`src/scraper/src/core/crawler.ts`) and proofs about it.

Each TypeScript class is embedded as a Lean structure with its methods as pure
functions; `async` methods whose bodies are sequential become state-passing
functions, and methods that `throw` return `Except`.
-/

namespace Scraper

/-! ### PriorityQueue (`src/scraper/src/utils/priority-queue.ts`) -/

/-- `QueueNode<T> { data, priority }`. -/
structure QueueNode (T : Type) where
  data : T
  priority : Nat
deriving DecidableEq, Repr

/-- `PriorityQueue<T>`: ordered list of nodes plus the `maxSize` bound. -/
structure PriorityQueue (T : Type) where
  items : List (QueueNode T)
  maxSize : Nat
deriving DecidableEq, Repr

/-- The single failure of `PriorityQueue.enqueue`: `throw new Error('Queue is full')`,
named `QueueFullError` in the specification's taxonomy. -/
inductive QueueError where
  | queueFull
deriving DecidableEq, Repr

/-- The insertion loop of `enqueue`: splice the node before the first element whose
priority is strictly greater, otherwise push at the end. -/
def insertSorted {T : Type} (n : QueueNode T) : List (QueueNode T) → List (QueueNode T)
  | [] => [n]
  | x :: xs => if n.priority < x.priority then n :: x :: xs else x :: insertSorted n xs

/-- `PriorityQueue.enqueue(data, priority)`: rejects when `items.length >= maxSize`,
otherwise inserts in sorted position. -/
def PriorityQueue.enqueue {T : Type} (q : PriorityQueue T) (data : T) (priority : Nat) :
    Except QueueError (PriorityQueue T) :=
  if q.maxSize ≤ q.items.length then .error .queueFull
  else .ok { q with items := insertSorted ⟨data, priority⟩ q.items }

/-- `PriorityQueue.dequeue()`: `null` when empty, else `items.shift().data`. -/
def PriorityQueue.dequeue {T : Type} (q : PriorityQueue T) :
    Option T × PriorityQueue T :=
  match q.items with
  | [] => (none, q)
  | x :: xs => (some x.data, { q with items := xs })

/-- `PriorityQueue.size()`. -/
def PriorityQueue.size {T : Type} (q : PriorityQueue T) : Nat := q.items.length

/-- `PriorityQueue.isEmpty()`. -/
def PriorityQueue.isEmpty {T : Type} (q : PriorityQueue T) : Bool := q.items.isEmpty

/-- `PriorityQueue.peek()`. -/
def PriorityQueue.peek {T : Type} (q : PriorityQueue T) : Option T :=
  q.items.head?.map (·.data)

/-- `PriorityQueue.getItems()`. -/
def PriorityQueue.getItems {T : Type} (q : PriorityQueue T) : List T :=
  q.items.map (·.data)

/-- A client-visible operation on the queue. -/
inductive QueueOp (T : Type) where
  | enq (data : T) (priority : Nat)
  | deq

/-- Run one operation; a failed enqueue (the thrown error) leaves the queue as it was. -/
def PriorityQueue.applyOp {T : Type} (q : PriorityQueue T) : QueueOp T → PriorityQueue T
  | .enq d p =>
    match q.enqueue d p with
    | .ok q' => q'
    | .error _ => q
  | .deq => q.dequeue.2

/-- The queue produced by the constructor `new PriorityQueue(maxSize)`. -/
def PriorityQueue.empty (T : Type) (maxSize : Nat) : PriorityQueue T :=
  ⟨[], maxSize⟩

/-- Run a sequence of operations from a fresh queue. -/
def runQueueOps {T : Type} (maxSize : Nat) (ops : List (QueueOp T)) : PriorityQueue T :=
  ops.foldl PriorityQueue.applyOp (PriorityQueue.empty T maxSize)

/-- Ascending-priority order of the stored node list. -/
def NodesSorted {T : Type} (l : List (QueueNode T)) : Prop :=
  l.Pairwise (fun a b => a.priority ≤ b.priority)

theorem insertSorted_perm {T : Type} (n : QueueNode T) (l : List (QueueNode T)) :
    List.Perm (insertSorted n l) (n :: l) := by
  induction l with
  | nil => simp [insertSorted]
  | cons x xs ih =>
    simp only [insertSorted]
    split
    · exact List.Perm.refl _
    · exact (List.Perm.cons x ih).trans (List.Perm.swap n x xs)

theorem insertSorted_sorted {T : Type} (n : QueueNode T) (l : List (QueueNode T))
    (h : NodesSorted l) : NodesSorted (insertSorted n l) := by
  induction l with
  | nil => simp [insertSorted, NodesSorted]
  | cons x xs ih =>
    simp only [NodesSorted, List.pairwise_cons] at h
    simp only [insertSorted]
    split
    · rename_i hlt
      refine List.Pairwise.cons ?_ (List.Pairwise.cons h.1 h.2)
      intro b hb
      rcases List.mem_cons.mp hb with rfl | hb'
      · exact Nat.le_of_lt hlt
      · exact Nat.le_trans (Nat.le_of_lt hlt) (h.1 b hb')
    · rename_i hge
      have hxn : x.priority ≤ n.priority := Nat.le_of_not_lt hge
      refine List.Pairwise.cons ?_ (ih h.2)
      intro b hb
      rcases List.mem_cons.mp ((insertSorted_perm n xs).mem_iff.mp hb) with rfl | hb'
      · exact hxn
      · exact h.1 b hb'

theorem insertSorted_length {T : Type} (n : QueueNode T) (l : List (QueueNode T)) :
    (insertSorted n l).length = l.length + 1 :=
  (insertSorted_perm n l).length_eq

theorem applyOp_enq {T : Type} (q : PriorityQueue T) (d : T) (p : Nat) :
    q.applyOp (.enq d p) =
      if q.maxSize ≤ q.items.length then q
      else { q with items := insertSorted ⟨d, p⟩ q.items } := by
  by_cases hc : q.maxSize ≤ q.items.length <;>
    simp [PriorityQueue.applyOp, PriorityQueue.enqueue, hc]

theorem applyOp_deq {T : Type} (q : PriorityQueue T) :
    q.applyOp .deq = { q with items := q.items.tail } := by
  obtain ⟨items, m⟩ := q
  cases items <;> rfl

theorem applyOp_sorted {T : Type} (q : PriorityQueue T) (op : QueueOp T)
    (h : NodesSorted q.items) : NodesSorted (q.applyOp op).items := by
  cases op with
  | enq d p =>
    rw [applyOp_enq]
    split
    · exact h
    · exact insertSorted_sorted _ _ h
  | deq =>
    rw [applyOp_deq]
    cases hq : q.items with
    | nil => simp [NodesSorted]
    | cons x xs =>
      rw [hq] at h
      exact (List.pairwise_cons.mp h).2

theorem applyOp_length_le {T : Type} (q : PriorityQueue T) (op : QueueOp T)
    (h : q.items.length ≤ q.maxSize) : (q.applyOp op).items.length ≤ (q.applyOp op).maxSize := by
  cases op with
  | enq d p =>
    rw [applyOp_enq]
    split
    · exact h
    · rename_i hfull
      simp only [insertSorted_length]
      exact Nat.lt_of_not_le hfull
  | deq =>
    rw [applyOp_deq]
    simp only
    calc q.items.tail.length ≤ q.items.length := by
          cases q.items <;> simp
      _ ≤ q.maxSize := h

theorem applyOp_maxSize {T : Type} (q : PriorityQueue T) (op : QueueOp T) :
    (q.applyOp op).maxSize = q.maxSize := by
  cases op with
  | enq d p =>
    rw [applyOp_enq]
    split <;> rfl
  | deq =>
    rw [applyOp_deq]

theorem runQueueOps_sorted {T : Type} (maxSize : Nat) (ops : List (QueueOp T)) :
    NodesSorted (runQueueOps maxSize ops).items := by
  suffices h : ∀ q : PriorityQueue T, NodesSorted q.items →
      NodesSorted (ops.foldl PriorityQueue.applyOp q).items by
    exact h _ (by simp [PriorityQueue.empty, NodesSorted])
  induction ops with
  | nil => intro q hq; exact hq
  | cons op rest ih =>
    intro q hq
    exact ih _ (applyOp_sorted q op hq)

theorem foldl_applyOp_bound {T : Type} (ops : List (QueueOp T)) :
    ∀ q : PriorityQueue T, q.items.length ≤ q.maxSize →
      (ops.foldl PriorityQueue.applyOp q).items.length ≤ q.maxSize ∧
      (ops.foldl PriorityQueue.applyOp q).maxSize = q.maxSize := by
  induction ops with
  | nil => intro q hq; exact ⟨hq, rfl⟩
  | cons op rest ih =>
    intro q hq
    have h1 := applyOp_length_le q op hq
    have h2 := applyOp_maxSize q op
    have := ih (q.applyOp op) (h2 ▸ h1)
    simpa [h2] using this

theorem runQueueOps_length {T : Type} (maxSize : Nat) (ops : List (QueueOp T)) :
    (runQueueOps maxSize ops).items.length ≤ maxSize :=
  (foldl_applyOp_bound ops (PriorityQueue.empty T maxSize) (by simp [PriorityQueue.empty])).1

/-- What `dequeue` does on a queue whose node list is sorted: it removes the head,
and the head's priority is minimal among all queued nodes. -/
theorem dequeue_spec {T : Type} (q : PriorityQueue T) (hs : NodesSorted q.items) :
    (q.items = [] → q.dequeue = (none, q)) ∧
    (∀ n rest, q.items = n :: rest →
      q.dequeue = (some n.data, { q with items := rest }) ∧
      ∀ m ∈ q.items, n.priority ≤ m.priority) := by
  obtain ⟨items, m⟩ := q
  cases items with
  | nil =>
    refine ⟨fun _ => rfl, fun n rest h => ?_⟩
    cases h
  | cons x xs =>
    refine ⟨fun h => absurd h (List.cons_ne_nil x xs), fun n rest h => ?_⟩
    obtain ⟨rfl, rfl⟩ : n = x ∧ rest = xs := by
      injection h with h1 h2
      exact ⟨h1.symm, h2.symm⟩
    simp only [NodesSorted, List.pairwise_cons] at hs
    refine ⟨rfl, fun b hb => ?_⟩
    rcases List.mem_cons.mp hb with rfl | hb'
    · exact Nat.le_refl _
    · exact hs.1 b hb'

/-- Dequeue three items in a row, observing the returned payloads. -/
def drainThree {T : Type} (q : PriorityQueue T) : Option T × Option T × Option T :=
  let r1 := q.dequeue
  let r2 := r1.2.dequeue
  let r3 := r2.2.dequeue
  (r1.1, r2.1, r3.1)

/-- C1: after any sequence of enqueues and dequeues, `dequeue` removes and returns
the head entry, whose priority number is minimal among all entries currently queued,
and returns `null` on an empty queue; concretely, enqueuing payloads at priorities
3, 1, 2 and dequeuing three times yields them in priority order 1, 2, 3. -/
theorem dequeue_returns_minimum {T : Type} (maxSize : Nat) (ops : List (QueueOp T)) :
    ((runQueueOps maxSize ops).items = [] →
      (runQueueOps maxSize ops).dequeue = (none, runQueueOps maxSize ops)) ∧
    (∀ n rest, (runQueueOps maxSize ops).items = n :: rest →
      (runQueueOps maxSize ops).dequeue =
        (some n.data, { runQueueOps maxSize ops with items := rest }) ∧
      ∀ m ∈ (runQueueOps maxSize ops).items, n.priority ≤ m.priority) ∧
    drainThree (runQueueOps (T := String) 5
        [.enq "low" 3, .enq "high" 1, .enq "medium" 2]) =
      (some "high", some "medium", some "low") := by
  have hs := runQueueOps_sorted maxSize ops
  have h := dequeue_spec (runQueueOps maxSize ops) hs
  refine ⟨h.1, h.2, ?_⟩
  decide

/-- Witness for C1 at a concrete run: dequeuing the queue built by enqueuing
priorities 3, 1, 2 removes and returns the priority-1 payload. -/
theorem dequeue_returns_minimum_witness :
    (runQueueOps 5 [QueueOp.enq "low" 3, .enq "high" 1, .enq "medium" 2]).dequeue =
      (some "high", { items := [⟨"medium", 2⟩, ⟨"low", 3⟩], maxSize := 5 }) ∧
    (⟨"high", 1⟩ : QueueNode String).priority ≤ (⟨"low", 3⟩ : QueueNode String).priority := by
  have h := (dequeue_returns_minimum (T := String) 5
    [.enq "low" 3, .enq "high" 1, .enq "medium" 2]).2.1
      ⟨"high", 1⟩ [⟨"medium", 2⟩, ⟨"low", 3⟩] (by decide)
  exact ⟨h.1, h.2 ⟨"low", 3⟩ (by decide)⟩

/-- C2: the queue size never exceeds `maxSize` over any operation sequence, and an
enqueue attempted when the size equals `maxSize` fails with `QueueFullError`
(the thrown `Error('Queue is full')`) leaving the queue unchanged. -/
theorem enqueue_bounded_by_maxSize {T : Type} (maxSize : Nat) (ops : List (QueueOp T)) :
    (runQueueOps maxSize ops).size ≤ maxSize ∧
    (∀ (q : PriorityQueue T) (d : T) (p : Nat), q.size = q.maxSize →
      q.enqueue d p = .error .queueFull ∧ q.applyOp (.enq d p) = q) := by
  refine ⟨runQueueOps_length maxSize ops, fun q d p hfull => ?_⟩
  have hc : q.maxSize ≤ q.items.length := Nat.le_of_eq hfull.symm
  constructor
  · simp [PriorityQueue.enqueue, hc]
  · simp [applyOp_enq, hc]

/-- Witness for C2: filling a 1-slot queue and enqueuing once more fails with
`QueueFullError` and leaves the single stored item in place. -/
theorem enqueue_bounded_by_maxSize_witness :
    (runQueueOps (T := String) 1 [.enq "a" 1, .enq "b" 2]).size ≤ 1 ∧
    (runQueueOps (T := String) 1 [.enq "a" 1]).enqueue "b" 2 = .error .queueFull := by
  refine ⟨(enqueue_bounded_by_maxSize 1 [.enq "a" 1, .enq "b" 2]).1, ?_⟩
  exact ((enqueue_bounded_by_maxSize (T := String) 1 []).2
    (runQueueOps 1 [.enq "a" 1]) "b" 2 (by decide)).1

/-! ### UrlManager (`src/scraper/src/core/url-manager.ts`) -/

/-- The pieces of a parsed WHATWG URL that `normalizeUrl` reads. -/
structure UrlParts where
  origin : String
  pathname : String
deriving DecidableEq, Repr

/-- `new URL(url)` restricted to what `normalizeUrl` consumes: scheme `://` host,
then a path terminated by `?` or `#`. Returns `none` where the constructor throws
(no scheme separator or empty host); an absent path parses as pathname `/`,
mirroring the WHATWG serialization. -/
def parseUrl (s : String) : Option UrlParts :=
  let cs := s.data
  let scheme := cs.takeWhile (·.isAlpha)
  let rest := cs.drop scheme.length
  if scheme.isEmpty then none
  else
    match rest with
    | ':' :: '/' :: '/' :: rest2 =>
      let authority := rest2.takeWhile (fun c => c != '/' && c != '?' && c != '#')
      if authority.isEmpty then none
      else
        let afterAuth := rest2.drop authority.length
        let path := afterAuth.takeWhile (fun c => c != '?' && c != '#')
        some { origin := String.mk (scheme ++ (':' :: '/' :: '/' :: authority)),
               pathname := if path.isEmpty then "/" else String.mk path }
    | _ => none

/-- `pathname.replace(/\/$/, '')`: drop a single trailing slash if present. -/
def stripTrailingSlash (p : String) : String :=
  if p.data.getLast? = some '/' then String.mk p.data.dropLast else p

/-- `UrlManager.normalizeUrl`: `origin + pathname` with the trailing slash stripped
(query and fragment never enter the key); a URL the constructor rejects is kept
verbatim. -/
def normalizeUrl (url : String) : String :=
  match parseUrl url with
  | some u => u.origin ++ stripTrailingSlash u.pathname
  | none => url

/-- `Set.add`: no-op on an already-present key. -/
def setAdd (l : List String) (x : String) : List String :=
  if l.contains x then l else l ++ [x]

/-- `UrlManager`: the wrapped `PriorityQueue<string>`, the visited set, and the
configured `maxSize` (the queue is constructed with the same bound). -/
structure UrlManager where
  queue : PriorityQueue String
  visited : List String
  maxSize : Nat
deriving DecidableEq, Repr

/-- `new UrlManager(config)`. -/
def UrlManager.init (maxSize : Nat) : UrlManager :=
  ⟨PriorityQueue.empty String maxSize, [], maxSize⟩

/-- `UrlManager.isVisited`. -/
def UrlManager.isVisited (um : UrlManager) (url : String) : Bool :=
  um.visited.contains (normalizeUrl url)

/-- `UrlManager.shouldEnqueue`: not yet visited and the queue below `config.maxSize`. -/
def UrlManager.shouldEnqueue (um : UrlManager) (url : String) : Bool :=
  !um.visited.contains (normalizeUrl url) && um.queue.size < um.maxSize

/-- `UrlManager.enqueue(url, priority = 1)`: when `shouldEnqueue`, pushes the
original string into the queue and records the normalized key as visited;
otherwise a no-op. (`queue.enqueue` cannot be full here because `shouldEnqueue`
checked the same bound the queue was constructed with; the error branch keeps
the state unchanged.) -/
def UrlManager.enqueue (um : UrlManager) (url : String) (priority : Nat := 1) :
    UrlManager :=
  if um.shouldEnqueue url then
    match um.queue.enqueue url priority with
    | .ok q' => { um with queue := q', visited := setAdd um.visited (normalizeUrl url) }
    | .error _ => um
  else um

/-- `UrlManager.dequeue`. -/
def UrlManager.dequeue (um : UrlManager) : Option String × UrlManager :=
  let r := um.queue.dequeue
  (r.1, { um with queue := r.2 })

/-- `UrlManager.getQueueSize`. -/
def UrlManager.getQueueSize (um : UrlManager) : Nat := um.queue.size

/-- C3: `UrlFrontier.enqueue` dedups on the normalized key (scheme + host + path,
one trailing slash stripped, query/fragment ignored) while queueing the original
string: an enqueue whose key is already visited, or performed with a full queue,
is a state-identical no-op; a performed enqueue stores the original URL and marks
the key visited; and enqueuing `https://x.com/a/` then `https://x.com/a` leaves
exactly one entry, the first original string. -/
theorem frontier_enqueue_dedups (um : UrlManager) (url : String) (p : Nat) :
    (um.visited.contains (normalizeUrl url) → um.enqueue url p = um) ∧
    (um.maxSize ≤ um.queue.size → um.enqueue url p = um) ∧
    (um.queue.maxSize = um.maxSize → um.shouldEnqueue url →
      (um.enqueue url p).queue.items = insertSorted ⟨url, p⟩ um.queue.items ∧
      (um.enqueue url p).visited = setAdd um.visited (normalizeUrl url)) ∧
    (((UrlManager.init 100).enqueue "https://x.com/a/" 1).enqueue "https://x.com/a" 1 =
      { queue := ⟨[⟨"https://x.com/a/", 1⟩], 100⟩,
        visited := ["https://x.com/a"], maxSize := 100 }) ∧
    normalizeUrl "https://x.com/a?q=1#frag" = "https://x.com/a" := by
  refine ⟨?_, ?_, ?_, ?_, ?_⟩
  · intro hv
    have hv' : normalizeUrl url ∈ um.visited := by simpa using hv
    have hse : um.shouldEnqueue url = false := by
      simp [UrlManager.shouldEnqueue, hv']
    simp [UrlManager.enqueue, hse]
  · intro hfull
    have hse : um.shouldEnqueue url = false := by
      simp [UrlManager.shouldEnqueue, Nat.not_lt.mpr hfull]
    simp [UrlManager.enqueue, hse]
  · intro hinv hse
    have hlt : um.queue.size < um.maxSize := by
      have := hse
      simp only [UrlManager.shouldEnqueue, Bool.and_eq_true, decide_eq_true_eq] at this
      exact this.2
    have hok : um.queue.enqueue url p =
        .ok { um.queue with items := insertSorted ⟨url, p⟩ um.queue.items } := by
      have : ¬ um.queue.maxSize ≤ um.queue.items.length := by
        rw [hinv]
        exact Nat.not_le.mpr hlt
      simp [PriorityQueue.enqueue, this]
    simp [UrlManager.enqueue, hse, hok]
  · decide
  · decide

/-- Witness for C3: the dedup no-op, the full-queue no-op, and the performed
enqueue, each at a concrete frontier. -/
theorem frontier_enqueue_dedups_witness :
    ((⟨⟨[], 10⟩, ["https://x.com/a"], 10⟩ : UrlManager).enqueue "https://x.com/a/" 2 =
      ⟨⟨[], 10⟩, ["https://x.com/a"], 10⟩) ∧
    ((⟨⟨[⟨"https://y.com/", 1⟩], 1⟩, ["https://y.com"], 1⟩ : UrlManager).enqueue
        "https://z.com/b" 2 =
      ⟨⟨[⟨"https://y.com/", 1⟩], 1⟩, ["https://y.com"], 1⟩) ∧
    ((UrlManager.init 100).enqueue "https://x.com/a/" 1).visited = ["https://x.com/a"] := by
  refine ⟨?_, ?_, ?_⟩
  · exact (frontier_enqueue_dedups ⟨⟨[], 10⟩, ["https://x.com/a"], 10⟩
      "https://x.com/a/" 2).1 (by decide)
  · exact (frontier_enqueue_dedups ⟨⟨[⟨"https://y.com/", 1⟩], 1⟩, ["https://y.com"], 1⟩
      "https://z.com/b" 2).2.1 (by decide)
  · exact ((frontier_enqueue_dedups (UrlManager.init 100) "https://x.com/a/" 1).2.2.1
      (by decide) (by decide)).2

/-! ### JobManager (`src/scraper/src/core/url-manager.ts`, class `JobManager`,
with the task/job records of `src/scraper/src/types/index.ts`)

`async` methods are split at their `await` points so that operations arriving
while a fetch is in flight can be interleaved; timestamps (`Date.now`,
`new Date().toISOString()`) and the generated ids enter as parameters. -/

/-- `CrawlTask.status` union. -/
inductive TaskStatus where
  | pending
  | processing
  | completed
  | failed
deriving DecidableEq, Repr

/-- `JobStatus.status` union. -/
inductive JobState where
  | running
  | paused
  | completed
  | failed
deriving DecidableEq, Repr

/-- `CrawlTask` of `src/scraper/src/types/index.ts` (the `timestamp` field is
never read by the scheduler and is omitted). -/
structure CrawlTask where
  id : String
  url : String
  priority : Nat
  retryCount : Nat
  maxRetries : Nat
  status : TaskStatus
deriving DecidableEq, Repr

/-- `JobStatus` of `src/scraper/src/types/index.ts`. -/
structure JobStatus where
  id : String
  tasks : List CrawlTask
  completedTasks : Nat
  failedTasks : Nat
  startTime : Nat
  endTime : Option Nat
  status : JobState
deriving DecidableEq, Repr

/-- Lifecycle notifications emitted through the `EventEmitter`, identified by the
job or task id they carry. -/
inductive JobEvent where
  | jobPaused (jobId : String)
  | jobResumed (jobId : String)
  | jobCancelled (jobId : String)
  | jobCompleted (jobId : String)
  | taskUpdated (taskId : String)
deriving DecidableEq, Repr

/-- `Map.set`: overwrite the value at the key, appending when absent. -/
def mapSet (m : List (String × JobStatus)) (k : String) (v : JobStatus) :
    List (String × JobStatus) :=
  if m.any (·.1 == k) then m.map (fun kv => if kv.1 == k then (k, v) else kv)
  else m ++ [(k, v)]

/-- `JobManager`: the `activeJobs` map and the shared `UrlManager`. -/
structure JobManager where
  activeJobs : List (String × JobStatus)
  urlManager : UrlManager
deriving DecidableEq, Repr

/-- `activeJobs.get(jobId)` (also `getJobStatus`). -/
def JobManager.getJob (jm : JobManager) (jobId : String) : Option JobStatus :=
  (jm.activeJobs.find? (·.1 == jobId)).map (·.2)

/-- `JobManager.startJob`: one pending task per URL (`retryCount` 0, `maxRetries` 3),
job starts `running` with `startTime`, and every task's URL is enqueued into the
frontier at the given priority. Ids and the timestamp are parameters. -/
def JobManager.startJob (jm : JobManager) (jobId : String) (taskIds : List String)
    (urls : List String) (priority : Nat) (t : Nat) : JobManager :=
  let tasks := List.zipWith
    (fun id url => (⟨id, url, priority, 0, 3, .pending⟩ : CrawlTask)) taskIds urls
  let job : JobStatus := ⟨jobId, tasks, 0, 0, t, none, .running⟩
  let jm1 := { jm with activeJobs := mapSet jm.activeJobs jobId job }
  { jm1 with urlManager :=
      tasks.foldl (fun um tk => um.enqueue tk.url tk.priority) jm1.urlManager }

/-- `JobManager.pauseJob`: only a `running` job becomes `paused` (and emits). -/
def JobManager.pauseJob (jm : JobManager) (jobId : String) :
    JobManager × List JobEvent :=
  match jm.getJob jobId with
  | some job =>
    if job.status = .running then
      ({ jm with activeJobs := mapSet jm.activeJobs jobId ({ job with status := .paused }) },
        [.jobPaused jobId])
    else (jm, [])
  | none => (jm, [])

/-- `JobManager.resumeJob`: only a `paused` job becomes `running` (and emits). -/
def JobManager.resumeJob (jm : JobManager) (jobId : String) :
    JobManager × List JobEvent :=
  match jm.getJob jobId with
  | some job =>
    if job.status = .paused then
      ({ jm with activeJobs := mapSet jm.activeJobs jobId ({ job with status := .running }) },
        [.jobResumed jobId])
    else (jm, [])
  | none => (jm, [])

/-- `JobManager.cancelJob`: any existing job, whatever its status, becomes `failed`
with `endTime` set. -/
def JobManager.cancelJob (jm : JobManager) (jobId : String) (t : Nat) :
    JobManager × List JobEvent :=
  match jm.getJob jobId with
  | some job =>
    let job1 : JobStatus := { job with status := .failed, endTime := some t }
    ({ jm with activeJobs := mapSet jm.activeJobs jobId job1 }, [.jobCancelled jobId])
  | none => (jm, [])

/-- `findTaskByUrl`: first pending task with that URL, scanning jobs in map order. -/
def JobManager.findTaskByUrl (jm : JobManager) (url : String) : Option CrawlTask :=
  jm.activeJobs.findSome?
    (fun kv => kv.2.tasks.find? (fun t => t.url == url && t.status == .pending))

/-- `findJobByTask`, keeping the map key along with the job. -/
def JobManager.findJobEntryByTask (jm : JobManager) (task : CrawlTask) :
    Option (String × JobStatus) :=
  jm.activeJobs.find? (fun kv => kv.2.tasks.any (·.id == task.id))

/-- `job.tasks[taskIndex] = task` at the first index whose id matches. -/
def replaceFirstTask : List CrawlTask → CrawlTask → List CrawlTask
  | [], _ => []
  | t :: ts, task => if t.id == task.id then task :: ts else t :: replaceFirstTask ts task

/-- `JobManager.updateTask`: write the task back into its owning job and emit
`taskUpdated`; silent when no job owns it. -/
def JobManager.updateTask (jm : JobManager) (task : CrawlTask) :
    JobManager × List JobEvent :=
  match jm.findJobEntryByTask task with
  | some (jid, job) =>
    if job.tasks.any (·.id == task.id) then
      let job1 : JobStatus := { job with tasks := replaceFirstTask job.tasks task }
      ({ jm with activeJobs := mapSet jm.activeJobs jid job1 }, [.taskUpdated task.id])
    else (jm, [])
  | none => (jm, [])

/-- `JobManager.updateTaskCompletion`: bump the owning job's completed/failed
counter; when all tasks are resolved, derive the terminal status, set `endTime`
and emit `jobCompleted`. The owning job's current status is never consulted. -/
def JobManager.updateTaskCompletion (jm : JobManager) (task : CrawlTask)
    (success : Bool) (t : Nat) : JobManager × List JobEvent :=
  match jm.findJobEntryByTask task with
  | some (jid, job) =>
    let job1 :=
      if success then { job with completedTasks := job.completedTasks + 1 }
      else { job with failedTasks := job.failedTasks + 1 }
    if job1.completedTasks + job1.failedTasks = job1.tasks.length then
      let job2 : JobStatus :=
        { job1 with
            status := if job1.failedTasks = 0 then JobState.completed else JobState.failed,
            endTime := some t }
      ({ jm with activeJobs := mapSet jm.activeJobs jid job2 }, [.jobCompleted jid])
    else
      ({ jm with activeJobs := mapSet jm.activeJobs jid job1 }, [])
  | none => (jm, [])

/-- `processTask` up to its first `await`: the task goes `processing` and is
written back. -/
def JobManager.processTaskBegin (jm : JobManager) (task : CrawlTask) :
    JobManager × CrawlTask × List JobEvent :=
  let task1 := { task with status := TaskStatus.processing }
  let r := jm.updateTask task1
  (r.1, task1, r.2)

/-- The tail of `processTask` when crawl, parse and store all succeeded: the task
goes `completed`, `updateTaskCompletion(task, true)` runs, then `updateTask`. -/
def JobManager.processTaskFinishSuccess (jm : JobManager) (task : CrawlTask)
    (t : Nat) : JobManager × List JobEvent :=
  let task1 := { task with status := TaskStatus.completed }
  let r1 := jm.updateTaskCompletion task1 true t
  let r2 := r1.1.updateTask task1
  (r2.1, r1.2 ++ r2.2)

/-- The tail of `processTask` when the pipeline threw: below `maxRetries` the task
goes back to `pending` with `retryCount` incremented and its URL is re-enqueued at
its original priority; otherwise it goes `failed` and the job's failure counter is
updated. Either way `updateTask` runs last. -/
def JobManager.processTaskFinishFailure (jm : JobManager) (task : CrawlTask)
    (t : Nat) : JobManager × List JobEvent :=
  if task.retryCount < task.maxRetries then
    let task1 := { task with retryCount := task.retryCount + 1,
                             status := TaskStatus.pending }
    let jm1 := { jm with urlManager := jm.urlManager.enqueue task.url task.priority }
    jm1.updateTask task1
  else
    let task1 := { task with status := TaskStatus.failed }
    let r1 := jm.updateTaskCompletion task1 false t
    let r2 := r1.1.updateTask task1
    (r2.1, r1.2 ++ r2.2)

/-- C10: a terminal (`completed` or `failed`) job is untouched by `pauseJob` and
`resumeJob` — state identical, no event; `pauseJob` moves only `running` to
`paused`, `resumeJob` only `paused` to `running`, and each is a silent no-op on
every other status. -/
theorem terminal_jobs_immune_to_pause_resume (jm : JobManager) (jobId : String)
    (job : JobStatus) (hj : jm.getJob jobId = some job) :
    (job.status = .completed ∨ job.status = .failed →
      jm.pauseJob jobId = (jm, []) ∧ jm.resumeJob jobId = (jm, [])) ∧
    (job.status ≠ .running → jm.pauseJob jobId = (jm, [])) ∧
    (job.status = .running →
      jm.pauseJob jobId =
        ({ jm with activeJobs := mapSet jm.activeJobs jobId ({ job with status := .paused }) },
          [.jobPaused jobId])) ∧
    (job.status ≠ .paused → jm.resumeJob jobId = (jm, [])) ∧
    (job.status = .paused →
      jm.resumeJob jobId =
        ({ jm with activeJobs := mapSet jm.activeJobs jobId ({ job with status := .running }) },
          [.jobResumed jobId])) := by
  refine ⟨?_, ?_, ?_, ?_, ?_⟩
  · rintro (h | h) <;>
      exact ⟨by simp [JobManager.pauseJob, hj, h], by simp [JobManager.resumeJob, hj, h]⟩
  · intro h
    simp [JobManager.pauseJob, hj, h]
  · intro h
    simp [JobManager.pauseJob, hj, h]
  · intro h
    simp [JobManager.resumeJob, hj, h]
  · intro h
    simp [JobManager.resumeJob, hj, h]

/-- Witness for C10 on a one-job manager whose job is already `failed`: pausing
and resuming change nothing and emit nothing. -/
theorem terminal_jobs_immune_to_pause_resume_witness :
    (JobManager.pauseJob
        ⟨[("j", ⟨"j", [], 0, 1, 0, some 3, .failed⟩)], UrlManager.init 10⟩ "j" =
      (⟨[("j", ⟨"j", [], 0, 1, 0, some 3, .failed⟩)], UrlManager.init 10⟩, [])) ∧
    (JobManager.resumeJob
        ⟨[("j", ⟨"j", [], 0, 1, 0, some 3, .failed⟩)], UrlManager.init 10⟩ "j" =
      (⟨[("j", ⟨"j", [], 0, 1, 0, some 3, .failed⟩)], UrlManager.init 10⟩, [])) := by
  exact (terminal_jobs_immune_to_pause_resume
    ⟨[("j", ⟨"j", [], 0, 1, 0, some 3, .failed⟩)], UrlManager.init 10⟩ "j"
    ⟨"j", [], 0, 1, 0, some 3, .failed⟩ (by decide)).1 (Or.inr rfl)

/-- C6, evaluated at the failing input: one job, one task. The fetch is dispatched
(`processTaskBegin`), the job is cancelled while it is in flight (status `failed`,
`endTime` populated — the immediate half of the claim holds), and then the stale
success lands: `updateTaskCompletion` never consults the job's status, so the
cancelled job is counted complete and its status flips from `failed` to
`completed`, emitting `jobCompleted`. This contradicts the claim that in-flight
results are discarded and the status stays `failed`. -/
theorem cancelled_job_flipped_by_late_completion :
    (let jm0 : JobManager := ⟨[], UrlManager.init 100⟩
    let jm1 := jm0.startJob "job1" ["t1"] ["https://a.test/page"] 1 0
    let task1 : CrawlTask := ⟨"t1", "https://a.test/page", 1, 0, 3, .pending⟩
    let r1 := jm1.urlManager.dequeue
    let jm2 : JobManager := { jm1 with urlManager := r1.2 }
    let rB := jm2.processTaskBegin task1
    let rC := rB.1.cancelJob "job1" 50
    let rF := rC.1.processTaskFinishSuccess rB.2.1 90
    jm2.findTaskByUrl "https://a.test/page" = some task1 ∧
    (rC.1.getJob "job1").map (fun j => (j.status, j.endTime)) =
      some (JobState.failed, some 50) ∧
    (rF.1.getJob "job1").map (fun j => (j.status, j.endTime)) =
      some (JobState.completed, some 90) ∧
    rF.2 = [JobEvent.jobCompleted "job1", JobEvent.taskUpdated "t1"]) := by
  decide

/-- C7, evaluated at the failing input: a job's only task fails its pipeline with
`retryCount 0 < maxRetries 3`. The scheduler does increment `retryCount` and put
the task back to `pending`, and it does call `urlManager.enqueue(url, priority)` —
but the URL's normalized key is already in the frontier's visited set (it was
recorded by the `startJob` enqueue), so the re-enqueue is a silent no-op and the
frontier queue stays empty: the URL is not present again, contradicting the claim. -/
theorem retry_reenqueue_is_silent_noop :
    (let jm0 : JobManager := ⟨[], UrlManager.init 100⟩
    let jm1 := jm0.startJob "job1" ["t1"] ["https://a.test/page"] 2 0
    let task1 : CrawlTask := ⟨"t1", "https://a.test/page", 2, 0, 3, .pending⟩
    let r1 := jm1.urlManager.dequeue
    let jm2 : JobManager := { jm1 with urlManager := r1.2 }
    let rB := jm2.processTaskBegin task1
    let rF := rB.1.processTaskFinishFailure rB.2.1 70
    r1.1 = some "https://a.test/page" ∧
    ((rF.1.getJob "job1").map fun j => j.tasks.map fun t => (t.retryCount, t.status)) =
      some [(1, TaskStatus.pending)] ∧
    rF.1.urlManager.queue.items = [] ∧
    rF.1.urlManager.isVisited "https://a.test/page" = true) := by
  decide

/-! ### Crawler (`src/scraper/src/core/crawler.ts`)

The axios client is modeled by an oracle `http : Nat → HttpOutcome` giving the
raw outcome of the n-th underlying HTTP GET. `validateStatus: status < 500`
means a response below 500 resolves and one at or above 500 rejects with an
error carrying `response.status`. The `await`/sleep suspensions only delay; the
trace records how many attempts ran and which backoff delays were slept. The
`crawl`/`handleRetry` recursion is genuinely unbounded in the source, so the
embedding carries explicit fuel: `outOfFuel` marks an execution still running
after `fuel` nested `crawl` activations. -/

/-- Connection-level error codes distinguished by `isRetryableError`. -/
inductive NetCode where
  | econnreset
  | etimedout
  | econnrefused
  | otherCode
deriving DecidableEq, Repr

/-- Raw outcome of one underlying HTTP GET. -/
inductive HttpOutcome where
  | resp (status : Nat)
  | netErr (code : NetCode)
deriving DecidableEq, Repr

/-- Errors flowing through `crawl`'s catch: an axios rejection carrying
`response.status` (≥ 500 only, by `validateStatus`), a connection error carrying
`code`, the robots-violation `Error`, or the message-only `Error` built by
`normalizeError`. -/
inductive CrawlError where
  | httpError (status : Nat)
  | connError (code : NetCode)
  | robotsDisallowed
  | httpMessage (status : Nat)
deriving DecidableEq, Repr

/-- `Crawler.isRetryableError`: ECONNRESET/ETIMEDOUT/ECONNREFUSED, or an error
with a response of status ≥ 500. -/
def isRetryableError : CrawlError → Bool
  | .connError .econnreset => true
  | .connError .etimedout => true
  | .connError .econnrefused => true
  | .httpError s => decide (500 ≤ s)
  | _ => false

/-- `Crawler.normalizeError`: an error with a response becomes
`Error('HTTP status: ...')`; anything else passes through. -/
def normalizeError : CrawlError → CrawlError
  | .httpError s => .httpMessage s
  | e => e

/-- `Crawler.getRetryDelay`: `min(retryDelay * 2^retryCount, 30000)`. -/
def getRetryDelay (retryDelay retryCount : Nat) : Nat :=
  min (retryDelay * 2 ^ retryCount) 30000

/-- The `CrawlerConfig` fields the retry logic reads, plus the
`policyConfig.robotsTxtEnforcement` flag consulted by `crawl`. -/
structure CrawlerConfig where
  retryAttempts : Nat
  retryDelay : Nat
  robotsTxtEnforcement : Bool
deriving DecidableEq, Repr

/-- The observable pieces of a `CrawlResult` the claims mention (content,
headers, timestamp and metadata are opaque payloads). -/
structure CrawlResult where
  url : String
  statusCode : Nat
deriving DecidableEq, Repr

/-- How many HTTP attempts ran and which backoff delays were slept. -/
structure FetchTrace where
  attempts : Nat
  delays : List Nat
deriving DecidableEq, Repr

/-- Result of a fueled `crawl` execution. -/
inductive CrawlOutcome where
  | ok (r : CrawlResult)
  | err (e : CrawlError)
  | outOfFuel
deriving DecidableEq, Repr

/-- One `httpClient.get`: counts the attempt and applies `validateStatus`. -/
def doGet (http : Nat → HttpOutcome) (tr : FetchTrace) :
    Except CrawlError Nat × FetchTrace :=
  let out := http tr.attempts
  (match out with
    | .resp s => if s < 500 then .ok s else .error (.httpError s)
    | .netErr c => .error (.connError c),
   { tr with attempts := tr.attempts + 1 })

/-- The `while (retryCount < this.config.retryAttempts)` loop of
`Crawler.handleRetry`: sleep the backoff delay, re-enter `crawl` (passed in as
`inner`), catch its error and continue; after the loop, surface the last error. -/
def handleRetryLoop (retryAttempts : Nat) (delayOf : Nat → Nat)
    (inner : FetchTrace → CrawlOutcome × FetchTrace)
    (retryCount : Nat) (lastError : CrawlError) (tr : FetchTrace) :
    CrawlOutcome × FetchTrace :=
  if h : retryCount < retryAttempts then
    let tr1 := { tr with delays := tr.delays ++ [delayOf retryCount] }
    match inner tr1 with
    | (.ok r, tr2) => (.ok r, tr2)
    | (.outOfFuel, tr2) => (.outOfFuel, tr2)
    | (.err e, tr2) => handleRetryLoop retryAttempts delayOf inner (retryCount + 1) e tr2
  else (.err (normalizeError lastError), tr)
termination_by retryAttempts - retryCount

/-- `Crawler.crawl(url)` with fuel bounding the depth of nested `crawl`
activations: check robots enforcement, issue the GET, return the result on any
status < 500, and on a retryable error enter `handleRetry` — whose loop body
recursively re-enters the full `crawl`. -/
def crawlGo (cfg : CrawlerConfig) (robotsAllowed : Bool) (http : Nat → HttpOutcome)
    (url : String) : Nat → FetchTrace → CrawlOutcome × FetchTrace
  | 0, tr => (.outOfFuel, tr)
  | fuel + 1, tr =>
    if cfg.robotsTxtEnforcement && !robotsAllowed then
      (.err (normalizeError .robotsDisallowed), tr)
    else
      let r := doGet http tr
      match r.1 with
      | .ok s => (.ok ⟨url, s⟩, r.2)
      | .error e =>
        if isRetryableError e then
          handleRetryLoop cfg.retryAttempts (getRetryDelay cfg.retryDelay)
            (fun tr' => crawlGo cfg robotsAllowed http url fuel tr') 0 e r.2
        else (.err (normalizeError e), r.2)

/-- C4, evaluated at the failing input (`retryAttempts = 1`, `retryDelay = 100`,
enforcement off, every HTTP attempt failing with ECONNRESET): for every fuel the
execution is still running, having made exactly `fuel` HTTP attempts and slept
`fuel` backoff delays — all equal to the attempt-0 delay. `handleRetry`'s loop
body re-enters the full `crawl`, whose own failure starts a fresh
`handleRetry` with `retryCount = 0`, so the counter never advances, the attempt
count is unbounded rather than at most `1 + retryAttempts = 2`, and no error is
ever surfaced; the backoff never grows past the first step. -/
theorem crawl_retry_attempts_unbounded :
    ∀ fuel : Nat,
      crawlGo ⟨1, 100, false⟩ true (fun _ => .netErr .econnreset) "https://a.test/x"
          fuel ⟨0, []⟩ =
        (.outOfFuel, ⟨fuel, List.replicate fuel (getRetryDelay 100 0)⟩) := by
  have key : ∀ fuel tr,
      crawlGo ⟨1, 100, false⟩ true (fun _ => .netErr .econnreset) "https://a.test/x"
          fuel tr =
        (.outOfFuel,
          ⟨tr.attempts + fuel, tr.delays ++ List.replicate fuel (getRetryDelay 100 0)⟩) := by
    intro fuel
    induction fuel with
    | zero => intro tr; simp [crawlGo]
    | succ n ih =>
      intro tr
      rw [crawlGo]
      simp only [Bool.false_and, Bool.if_false_left, Bool.not_false, doGet,
        isRetryableError, if_true]
      rw [handleRetryLoop]
      simp only [Nat.zero_lt_one, dif_pos]
      rw [ih]
      simp [List.replicate_succ]
      omega
  intro fuel
  rw [key fuel ⟨0, []⟩]
  simp

/-- C5 counterexample: with every HTTP attempt answering status 404, `crawl`
returns a success `CrawlResult` with `statusCode = 404` after exactly one
attempt and no backoff — it does not fail at all. `validateStatus: status < 500`
makes axios resolve 4xx responses, so no `ClientError` path exists; this refutes
the claim that the fetch fails with a `ClientError` identifying status 404. -/
theorem crawl_404_returns_success_counterexample :
    crawlGo ⟨3, 100, true⟩ true (fun _ => .resp 404) "https://a.test/missing" 5 ⟨0, []⟩ =
      (.ok ⟨"https://a.test/missing", 404⟩, ⟨1, []⟩) := by
  simp [crawlGo, doGet]

/-- C5 amended: for every status below 500 (404 in particular), `crawl` resolves
after exactly 1 underlying HTTP attempt, without retrying and without sleeping
any backoff, and returns a success result carrying that status code — it does
not throw a `ClientError`. -/
theorem crawl_4xx_single_attempt_success (cfg : CrawlerConfig) (url : String)
    (s fuel : Nat) (hs : s < 500) (hf : 1 ≤ fuel) :
    crawlGo cfg true (fun _ => .resp s) url fuel ⟨0, []⟩ = (.ok ⟨url, s⟩, ⟨1, []⟩) := by
  cases fuel with
  | zero => omega
  | succ n =>
    rw [crawlGo]
    simp [doGet, hs]

/-- Witness for the amended C5 at status 404 with one unit of fuel. -/
theorem crawl_4xx_single_attempt_success_witness :
    crawlGo ⟨3, 100, false⟩ true (fun _ => .resp 404) "https://a.test/missing" 1 ⟨0, []⟩ =
      (.ok ⟨"https://a.test/missing", 404⟩, ⟨1, []⟩) :=
  crawl_4xx_single_attempt_success ⟨3, 100, false⟩ "https://a.test/missing" 404 1
    (by decide) (by decide)

/-! ### RobotsParser (`src/scraper/src/utils/priority-queue.ts`, class `RobotsParser`)

`matchesPattern` builds a regex from the robots pattern by the replacement chain
`* → .*`, `? → \?`, `$ → \$`, `. → \.` — the final dot-escape also rewrites the
dots introduced by the first step, so every `*` of the pattern ends up as `\.*`
(zero or more literal `.` characters), and `?`, `$`, `.` end up as escaped
literals. The regex is `'^' + transformed + '.*$'`. The matcher below is the
denotation of that regex (for patterns without other regex metacharacters): each
pattern character becomes a token, anchored at the start of the path, with the
trailing `.*$` accepting any remainder. -/

/-- `RobotsRule { pattern, allow }`. -/
structure RobotsRule where
  pattern : String
  allow : Bool
deriving DecidableEq, Repr

/-- One token of the regex built by `matchesPattern`. -/
inductive PatTok where
  | lit (c : Char)
  | dotStar
deriving DecidableEq, Repr

/-- Tokenize the pattern as the replacement chain leaves it: `*` becomes `\.*`
(`dotStar`), everything else a literal. -/
def patToks (pattern : String) : List PatTok :=
  pattern.data.map fun c => if c = '*' then PatTok.dotStar else PatTok.lit c

/-- `\.*` can absorb `j` leading dots for any `j` up to the length of the
path's run of dots. -/
def countLeadingDots (xs : List Char) : Nat :=
  (xs.takeWhile (· == '.')).length

/-- Match the token list against a prefix of the path (the regex's trailing
`.*$` accepts whatever remains once the tokens are consumed); `dotStar`
matches zero or more literal dots. -/
def consumeToks : List PatTok → List Char → Bool
  | [], _ => true
  | .lit _ :: _, [] => false
  | .lit c :: ts, x :: xs => c == x && consumeToks ts xs
  | .dotStar :: ts, xs =>
    (List.range (countLeadingDots xs + 1)).any fun j => consumeToks ts (xs.drop j)

/-- `RobotsParser.matchesPattern(path, pattern)`. -/
def matchesPattern (path pattern : String) : Bool :=
  consumeToks (patToks pattern) path.data

/-- The matching the specification describes: `*` matches any substring of the
path, matching anchors at the path start. Used only to exhibit where the code
diverges from the claim. -/
def specConsume : List Char → List Char → Bool
  | [], _ => true
  | p :: ps, xs =>
    if p = '*' then (List.range (xs.length + 1)).any fun j => specConsume ps (xs.drop j)
    else
      match xs with
      | [] => false
      | x :: xs' => p == x && specConsume ps xs'

/-- Specification-side `matchesPattern`. -/
def specMatchesPattern (path pattern : String) : Bool :=
  specConsume pattern.data path.data

/-- The first rule of maximal pattern length: the head of the stable
descending sort `rules.sort((a, b) => b.pattern.length - a.pattern.length)`. -/
def pickLongest (rules : List RobotsRule) : Option RobotsRule :=
  rules.foldl
    (fun acc r =>
      match acc with
      | none => some r
      | some b => if r.pattern.length > b.pattern.length then some r else some b)
    none

/-- `RobotsParser.isAllowed` given the cached rules for the origin and the URL's
pathname: keep the rules whose pattern matches, take the longest, return its
allow flag; default to allowed with no rules or no match. -/
def RobotsParser.isAllowed (rules : List RobotsRule) (pathname : String) : Bool :=
  if rules.isEmpty then true
  else
    match pickLongest (rules.filter fun r => matchesPattern pathname r.pattern) with
    | some r => r.allow
    | none => true

/-- C9, evaluated at the failing input: under the claim's semantics `*` in
`/a*b` matches the substring `X`, so the lone `Disallow: /a*b` rule matches
path `/aXb` and `isAllowed` would return false; but the code's replacement
order escapes the dot of `.*` after introducing it, so `*` only matches runs
of literal dots — `/aXb` matches no rule and `isAllowed` returns true, while
`/a..b` still matches. -/
theorem robots_star_matches_only_literal_dots :
    matchesPattern "/aXb" "/a*b" = false ∧
    specMatchesPattern "/aXb" "/a*b" = true ∧
    matchesPattern "/a..b" "/a*b" = true ∧
    matchesPattern "/ab" "/a*b" = true ∧
    RobotsParser.isAllowed [⟨"/a*b", false⟩] "/aXb" = true ∧
    RobotsParser.isAllowed [⟨"/a*b", false⟩] "/a..b" = false := by
  decide

/-! ### RateLimiter (`src/scraper/src/utils/priority-queue.ts`, class `RateLimiter`)

`acquire` is modeled one invocation at a time: an invocation at time `now`
refills the bucket and either consumes a token (granted) or would sleep and
re-invoke itself later — that re-invocation is simply a later call in the call
list, so a list of call times covers every possible timing. Times are integer
milliseconds; `refillRate = 1000 / limit` is exact whenever `limit` divides
1000 (all theorems below are stated in that regime or independent of it). -/

/-- `TokenBucket { tokens, lastRefill }`. -/
structure TokenBucket where
  tokens : Nat
  lastRefill : Nat
deriving DecidableEq, Repr

/-- `RateLimiter`: per-domain buckets, per-domain limits, and the default. -/
structure RateLimiter where
  buckets : List (String × TokenBucket)
  limits : List (String × Nat)
  defaultLimit : Nat
deriving DecidableEq, Repr

/-- `this.limits[domain] || this.defaultLimit` (a stored 0 is falsy). -/
def RateLimiter.limitFor (rl : RateLimiter) (domain : String) : Nat :=
  match (rl.limits.find? (·.1 == domain)).map (·.2) with
  | some l => if l = 0 then rl.defaultLimit else l
  | none => rl.defaultLimit

/-- `RateLimiter.getBucket`: create the bucket lazily, full, stamped `now`. -/
def RateLimiter.getBucket (rl : RateLimiter) (domain : String) (now : Nat) :
    TokenBucket × RateLimiter :=
  match (rl.buckets.find? (·.1 == domain)).map (·.2) with
  | some b => (b, rl)
  | none =>
    let b : TokenBucket := ⟨rl.limitFor domain, now⟩
    (b, { rl with buckets := rl.buckets ++ [(domain, b)] })

/-- Write the domain's bucket back (the in-place mutation of the JS object). -/
def RateLimiter.setBucket (rl : RateLimiter) (domain : String) (b : TokenBucket) :
    RateLimiter :=
  { rl with buckets := rl.buckets.map fun kv => if kv.1 == domain then (domain, b) else kv }

/-- One invocation of `RateLimiter.acquire(domain)` at time `now`: refill
`floor(timePassed / refillRate)` tokens capped at the limit, move `lastRefill`
forward keeping the remainder, then either consume a token (`true`) or leave
the caller to sleep and call again (`false`). -/
def RateLimiter.acquireStep (rl : RateLimiter) (domain : String) (now : Nat) :
    RateLimiter × Bool :=
  let r0 := rl.getBucket domain now
  let bucket := r0.1
  let rl1 := r0.2
  let limit := rl.limitFor domain
  let refillRate := 1000 / limit
  let timePassed := now - bucket.lastRefill
  let tokensToAdd := timePassed / refillRate
  let tokens1 := min limit (bucket.tokens + tokensToAdd)
  let lastRefill1 := now - timePassed % refillRate
  if tokens1 < 1 then (rl1.setBucket domain ⟨tokens1, lastRefill1⟩, false)
  else (rl1.setBucket domain ⟨tokens1 - 1, lastRefill1⟩, true)

/-- Run `acquire` invocations for one domain at the given times, counting the
granted ones. -/
def runAcquires (rl : RateLimiter) (domain : String) : List Nat → RateLimiter × Nat
  | [] => (rl, 0)
  | t :: ts =>
    let s := rl.acquireStep domain t
    let rest := runAcquires s.1 domain ts
    (rest.1, (if s.2 then 1 else 0) + rest.2)

/-- C8 counterexample: domain `d` configured at 2 requests/second. Calls at
t = 0, 0, 500 are all granted — three acquisitions inside the rolling one-second
window [0, 1000), exceeding the configured limit 2: the token bucket admits a
full-capacity burst on top of the refill stream, so the rolling-window reading
of the claim is false. -/
theorem rate_limiter_rolling_second_counterexample :
    (runAcquires ⟨[], [("d", 2)], 1⟩ "d" [0, 0, 500]).2 = 3 := by
  decide

theorem setBucket_limitFor (rl : RateLimiter) (d d' : String) (b : TokenBucket) :
    (rl.setBucket d b).limitFor d' = rl.limitFor d' := rfl

theorem find?_append_single_ne (bs : List (String × TokenBucket)) (d d' : String)
    (b : TokenBucket) (h : (d == d') = false) :
    ((bs ++ [(d, b)]).find? (fun kv => kv.1 == d')) = bs.find? (fun kv => kv.1 == d') := by
  induction bs with
  | nil => simp [List.find?, h]
  | cons kv rest ih =>
    cases hkv : (kv.1 == d') with
    | true => simp [List.find?_cons, hkv]
    | false => simp [List.find?_cons, hkv, ih]

theorem find?_setBucket_self (bs : List (String × TokenBucket)) (d : String)
    (b x : TokenBucket) (h : bs.find? (fun kv => kv.1 == d) = some (d, x)) :
    ((bs.map fun kv => if kv.1 == d then (d, b) else kv).find? (fun kv => kv.1 == d)) =
      some (d, b) := by
  induction bs with
  | nil => simp [List.find?] at h
  | cons kv rest ih =>
    by_cases hkv : kv.1 = d
    · simp [List.find?_cons, hkv]
    · rw [List.find?_cons_of_neg _ (by simp [hkv])] at h
      have hhead : (if (kv.1 == d) = true then (d, b) else kv) = kv := by simp [hkv]
      simp only [List.map_cons, hhead]
      rw [List.find?_cons_of_neg _ (by simp [hkv])]
      exact ih h

theorem find?_setBucket_other (bs : List (String × TokenBucket)) (d d' : String)
    (b : TokenBucket) (h : (d == d') = false) :
    ((bs.map fun kv => if kv.1 == d then (d, b) else kv).find? (fun kv => kv.1 == d')) =
      bs.find? (fun kv => kv.1 == d') := by
  induction bs with
  | nil => simp
  | cons kv rest ih =>
    have hdd : ¬ d = d' := by simpa using h
    by_cases hkv : kv.1 = d
    · have hne : ¬ kv.1 = d' := by rw [hkv]; exact hdd
      have hhead : (if (kv.1 == d) = true then (d, b) else kv) = (d, b) := by simp [hkv]
      simp only [List.map_cons, hhead]
      rw [List.find?_cons_of_neg _ (by simp [hdd]),
        List.find?_cons_of_neg _ (by simp [hne]), ih]
    · have hhead : (if (kv.1 == d) = true then (d, b) else kv) = kv := by simp [hkv]
      simp only [List.map_cons, hhead]
      by_cases hkv' : kv.1 = d'
      · rw [List.find?_cons_of_pos _ (by simp [hkv']), List.find?_cons_of_pos _ (by simp [hkv'])]
      · rw [List.find?_cons_of_neg _ (by simp [hkv']),
          List.find?_cons_of_neg _ (by simp [hkv']), ih]

/-- `acquireStep` on a domain whose bucket already exists. -/
theorem acquireStep_found (rl : RateLimiter) (d : String) (now : Nat) (b : TokenBucket)
    (hfind : rl.buckets.find? (fun kv => kv.1 == d) = some (d, b)) :
    rl.acquireStep d now =
      (if min (rl.limitFor d) (b.tokens + (now - b.lastRefill) / (1000 / rl.limitFor d)) < 1
       then (rl.setBucket d
          ⟨min (rl.limitFor d) (b.tokens + (now - b.lastRefill) / (1000 / rl.limitFor d)),
           now - (now - b.lastRefill) % (1000 / rl.limitFor d)⟩, false)
       else (rl.setBucket d
          ⟨min (rl.limitFor d) (b.tokens + (now - b.lastRefill) / (1000 / rl.limitFor d)) - 1,
           now - (now - b.lastRefill) % (1000 / rl.limitFor d)⟩, true)) := by
  unfold RateLimiter.acquireStep RateLimiter.getBucket
  rw [hfind]
  rfl

/-- The arithmetic of one refill-and-consume step: the bucket's potential
`tokens + (tmax - lastRefill) / r` never increases. -/
theorem bucket_step_arith (r L tokens LRold t tmax : Nat)
    (hle : LRold ≤ t) (hmax : t ≤ tmax) :
    min L (tokens + (t - LRold) / r) + (tmax - (t - (t - LRold) % r)) / r ≤
      tokens + (tmax - LRold) / r := by
  have hdm := Nat.div_add_mod (t - LRold) r
  have hq : r * ((t - LRold) / r) ≤ t - LRold := by omega
  have hΔX : t - LRold ≤ tmax - LRold := by omega
  have hLR1 : t - (t - LRold) % r = LRold + r * ((t - LRold) / r) := by omega
  have hrw : tmax - (t - (t - LRold) % r) = (tmax - LRold) - r * ((t - LRold) / r) := by
    omega
  rw [hrw, Nat.sub_mul_div _ _ _ (le_trans hq hΔX)]
  have hmin : min L (tokens + (t - LRold) / r) ≤ tokens + (t - LRold) / r :=
    Nat.min_le_right _ _
  have haX : (t - LRold) / r ≤ (tmax - LRold) / r :=
    Nat.div_le_div_right hΔX
  omega

/-- `acquireStep` on a domain with no bucket yet: the bucket is created full and
stamped `now`, so the refill adds nothing and the call consumes one token (when
the limit is positive). -/
theorem acquireStep_fresh (rl : RateLimiter) (d : String) (now : Nat)
    (hfind : rl.buckets.find? (fun kv => kv.1 == d) = none) :
    rl.acquireStep d now =
      (let rl1 : RateLimiter :=
        { rl with buckets := rl.buckets ++ [(d, ⟨rl.limitFor d, now⟩)] }
       if rl.limitFor d < 1 then (rl1.setBucket d ⟨rl.limitFor d, now⟩, false)
       else (rl1.setBucket d ⟨rl.limitFor d - 1, now⟩, true)) := by
  unfold RateLimiter.acquireStep RateLimiter.getBucket
  rw [hfind]
  simp

/-- Potential bound for an existing bucket: the grants of any non-decreasing
call sequence lying between the bucket's `lastRefill` and `tmax` are bounded by
the bucket's potential `tokens + (tmax - lastRefill) / refillRate`. -/
theorem runAcquires_potential_bound (d : String) (tmax L r : Nat)
    (hr : r = 1000 / L) :
    ∀ (ts : List Nat) (rl : RateLimiter) (b : TokenBucket),
      rl.limitFor d = L →
      rl.buckets.find? (fun kv => kv.1 == d) = some (d, b) →
      ts.Pairwise (· ≤ ·) →
      (∀ t ∈ ts, b.lastRefill ≤ t ∧ t ≤ tmax) →
      (runAcquires rl d ts).2 ≤ b.tokens + (tmax - b.lastRefill) / r := by
  intro ts
  induction ts with
  | nil =>
    intro rl b hL hfind hs hb
    simp [runAcquires]
  | cons t rest ih =>
    intro rl b hL hfind hs hb
    obtain ⟨hbt, htmax⟩ := hb t (List.mem_cons_self _ _)
    have hhead := (List.pairwise_cons.mp hs).1
    have htail := (List.pairwise_cons.mp hs).2
    have harith := bucket_step_arith r L b.tokens b.lastRefill t tmax hbt htmax
    have hstep := acquireStep_found rl d t b hfind
    rw [hL, ← hr] at hstep
    by_cases hlow : min L (b.tokens + (t - b.lastRefill) / r) < 1
    · rw [if_pos hlow] at hstep
      have hfind1 :
          (rl.setBucket d ⟨min L (b.tokens + (t - b.lastRefill) / r),
            t - (t - b.lastRefill) % r⟩).buckets.find? (fun kv => kv.1 == d) =
            some (d, ⟨min L (b.tokens + (t - b.lastRefill) / r),
              t - (t - b.lastRefill) % r⟩) :=
        find?_setBucket_self rl.buckets d _ b hfind
      have hrange1 : ∀ t' ∈ rest,
          (⟨min L (b.tokens + (t - b.lastRefill) / r),
            t - (t - b.lastRefill) % r⟩ : TokenBucket).lastRefill ≤ t' ∧ t' ≤ tmax :=
        fun t' ht' => ⟨le_trans (Nat.sub_le _ _) (hhead t' ht'),
          (hb t' (List.mem_cons_of_mem _ ht')).2⟩
      have ihr := ih (rl.setBucket d _) _ (by rw [setBucket_limitFor]; exact hL)
        hfind1 htail hrange1
      simp only [runAcquires, hstep, if_neg (Bool.false_ne_true), Bool.false_eq_true,
        if_false]
      dsimp only at ihr ⊢
      omega
    · rw [if_neg hlow] at hstep
      have hfind1 :
          (rl.setBucket d ⟨min L (b.tokens + (t - b.lastRefill) / r) - 1,
            t - (t - b.lastRefill) % r⟩).buckets.find? (fun kv => kv.1 == d) =
            some (d, ⟨min L (b.tokens + (t - b.lastRefill) / r) - 1,
              t - (t - b.lastRefill) % r⟩) :=
        find?_setBucket_self rl.buckets d _ b hfind
      have hrange1 : ∀ t' ∈ rest,
          (⟨min L (b.tokens + (t - b.lastRefill) / r) - 1,
            t - (t - b.lastRefill) % r⟩ : TokenBucket).lastRefill ≤ t' ∧ t' ≤ tmax :=
        fun t' ht' => ⟨le_trans (Nat.sub_le _ _) (hhead t' ht'),
          (hb t' (List.mem_cons_of_mem _ ht')).2⟩
      have ihr := ih (rl.setBucket d _) _ (by rw [setBucket_limitFor]; exact hL)
        hfind1 htail hrange1
      simp only [runAcquires, hstep]
      simp only [if_true]
      dsimp only at ihr ⊢
      omega

/-- `acquire(d)` touches only domain `d`'s bucket: every other domain's bucket
entry, the limits table and the default limit are unchanged. -/
theorem acquireStep_frame (rl : RateLimiter) (d d' : String) (now : Nat)
    (h : (d == d') = false) :
    (rl.acquireStep d now).1.buckets.find? (fun kv => kv.1 == d') =
      rl.buckets.find? (fun kv => kv.1 == d') ∧
    (rl.acquireStep d now).1.limits = rl.limits ∧
    (rl.acquireStep d now).1.defaultLimit = rl.defaultLimit := by
  cases hfind : rl.buckets.find? (fun kv => kv.1 == d) with
  | some kv =>
    obtain ⟨k, b⟩ := kv
    have hk : k = d := by simpa using List.find?_some hfind
    subst hk
    rw [acquireStep_found rl k now b hfind]
    by_cases hc : min (rl.limitFor k) (b.tokens + (now - b.lastRefill) / (1000 / rl.limitFor k)) < 1
    · rw [if_pos hc]
      exact ⟨find?_setBucket_other _ _ _ _ h, rfl, rfl⟩
    · rw [if_neg hc]
      exact ⟨find?_setBucket_other _ _ _ _ h, rfl, rfl⟩
  | none =>
    rw [acquireStep_fresh rl d now hfind]
    dsimp only
    by_cases hc : rl.limitFor d < 1
    · rw [if_pos hc]
      exact ⟨(find?_setBucket_other _ _ _ _ h).trans (find?_append_single_ne _ _ _ _ h),
        rfl, rfl⟩
    · rw [if_neg hc]
      exact ⟨(find?_setBucket_other _ _ _ _ h).trans (find?_append_single_ne _ _ _ _ h),
        rfl, rfl⟩

/-- C8 amended: the limiter is a per-domain token bucket with burst capacity
equal to the limit: on a fresh limiter, any non-decreasing sequence of
`acquire(d)` invocations lying within `[t0, t0 + T]` completes at most
`limit + T / refillRate` acquisitions (`refillRate = 1000 / limit` ms) — the
long-run rate is the configured limit per second, but inside one rolling second
up to `2·limit` acquisitions can complete, not `limit`; and an acquire on one
domain leaves every other domain's bucket, the limits table and the default
limit untouched. -/
theorem rate_limiter_burst_bound (limits : List (String × Nat)) (dft : Nat)
    (d : String) (times : List Nat) (t0 T L r : Nat)
    (hL : (⟨[], limits, dft⟩ : RateLimiter).limitFor d = L)
    (hr : r = 1000 / L)
    (hsorted : times.Pairwise (· ≤ ·))
    (hrange : ∀ t ∈ times, t0 ≤ t ∧ t ≤ t0 + T) :
    (runAcquires ⟨[], limits, dft⟩ d times).2 ≤ L + T / r ∧
    ∀ (rl : RateLimiter) (d' : String) (now : Nat), (d == d') = false →
      (rl.acquireStep d now).1.buckets.find? (fun kv => kv.1 == d') =
        rl.buckets.find? (fun kv => kv.1 == d') ∧
      (rl.acquireStep d now).1.limits = rl.limits ∧
      (rl.acquireStep d now).1.defaultLimit = rl.defaultLimit := by
  refine ⟨?_, fun rl d' now h => acquireStep_frame rl d d' now h⟩
  cases times with
  | nil => simp [runAcquires]
  | cons c1 rest =>
    obtain ⟨hc1lo, hc1hi⟩ := hrange c1 (List.mem_cons_self _ _)
    have hmono : (t0 + T - c1) / r ≤ T / r := Nat.div_le_div_right (by omega)
    have hfresh := acquireStep_fresh ⟨[], limits, dft⟩ d c1 rfl
    rw [hL] at hfresh
    dsimp only at hfresh
    simp only [List.nil_append] at hfresh
    have hhead := (List.pairwise_cons.mp hsorted).1
    have htail := (List.pairwise_cons.mp hsorted).2
    by_cases hc : L < 1
    · rw [if_pos hc] at hfresh
      have hfind2 : ((⟨[(d, ⟨L, c1⟩)], limits, dft⟩ : RateLimiter).setBucket d
            ⟨L, c1⟩).buckets.find? (fun kv => kv.1 == d) = some (d, ⟨L, c1⟩) :=
        find?_setBucket_self _ d _ ⟨L, c1⟩ (by simp [List.find?])
      have hbnd := runAcquires_potential_bound d (t0 + T) L r hr rest
        ((⟨[(d, ⟨L, c1⟩)], limits, dft⟩ : RateLimiter).setBucket d ⟨L, c1⟩)
        ⟨L, c1⟩ hL hfind2 htail
        (fun t' ht' => ⟨hhead t' ht', (hrange t' (List.mem_cons_of_mem _ ht')).2⟩)
      simp only [runAcquires, hfresh, Bool.false_eq_true, if_false]
      dsimp only at hbnd ⊢
      omega
    · rw [if_neg hc] at hfresh
      have hfind2 : ((⟨[(d, ⟨L, c1⟩)], limits, dft⟩ : RateLimiter).setBucket d
            ⟨L - 1, c1⟩).buckets.find? (fun kv => kv.1 == d) = some (d, ⟨L - 1, c1⟩) :=
        find?_setBucket_self _ d _ ⟨L, c1⟩ (by simp [List.find?])
      have hbnd := runAcquires_potential_bound d (t0 + T) L r hr rest
        ((⟨[(d, ⟨L, c1⟩)], limits, dft⟩ : RateLimiter).setBucket d ⟨L - 1, c1⟩)
        ⟨L - 1, c1⟩ hL hfind2 htail
        (fun t' ht' => ⟨hhead t' ht', (hrange t' (List.mem_cons_of_mem _ ht')).2⟩)
      simp only [runAcquires, hfresh, if_true]
      dsimp only at hbnd ⊢
      omega

/-- Witness for the amended C8: domain `d` at 2 requests/second, calls at
t = 0, 0, 500 within T = 500 ms of the first call — the bound `2 + 500/500 = 3`
is met (and, per the counterexample, attained). -/
theorem rate_limiter_burst_bound_witness :
    (runAcquires ⟨[], [("d", 2)], 1⟩ "d" [0, 0, 500]).2 ≤ 2 + 500 / 500 :=
  (rate_limiter_burst_bound [("d", 2)] 1 "d" [0, 0, 500] 0 500 2 500
    (by decide) (by decide) (by decide) (by decide)).1

end Scraper

